import Mathlib

/-
Verification of the metadata codec core of pdf_updater.py:
the key-signature codec (KEY_MAP / parse_key), the PDF timestamp codec
(fmt_timestamp / parse_timestamp_str, built on CPython strptime with the
fixed format D:%Y%m%d%H%M%S%z), and the field-mapping layer
(META_MAP / dict_to_metadata).

Strings are modelled at the level of their character lists.  Character
classes written \d in the Python regular expressions are modelled as the
ASCII digits 0-9, and case mapping as ASCII case mapping; the inputs the
specification speaks about only exercise those.
-/

namespace PdfUpdater

/-! Python dict semantics: insertion ordered association lists where a
repeated key keeps its first position and takes the last value. -/

def dictInsert {α β : Type} [DecidableEq α] :
    List (α × β) → α → β → List (α × β)
  | [], k, v => [(k, v)]
  | (k0, v0) :: rest, k, v =>
    if k = k0 then (k0, v) :: rest else (k0, v0) :: dictInsert rest k v

def dictOf {α β : Type} [DecidableEq α] (items : List (α × β)) : List (α × β) :=
  items.foldl (fun d kv => dictInsert d kv.1 kv.2) []

def dictGet {α β : Type} [DecidableEq α] : List (α × β) → α → Option β
  | [], _ => none
  | (k0, v0) :: rest, k => if k = k0 then some v0 else dictGet rest k

/-! ## Key-signature codec -/

def FLAT : Char := '♭'

def SHARP : Char := '♯'

/-- KEY_MAP of pdf_updater.py: circle-of-fifths pair (accidentals, mode)
to canonical key name, mode 0 = Major and 1 = Minor as in the source. -/
def KEY_MAP : List ((Int × Int) × String) :=
  [((-7, 0), "C Flat Major"),
   ((-6, 0), "G Flat Major"),
   ((-5, 0), "D Flat Major"),
   ((-4, 0), "A Flat Major"),
   ((-3, 0), "E Flat Major"),
   ((-2, 0), "B Flat Major"),
   ((-1, 0), "F Major"),
   ((0, 0), "C Major"),
   ((1, 0), "G Major"),
   ((2, 0), "D Major"),
   ((3, 0), "A Major"),
   ((4, 0), "E Major"),
   ((5, 0), "B Major"),
   ((6, 0), "F Sharp Major"),
   ((7, 0), "C Sharp Major"),
   ((-7, 1), "A Flat Minor"),
   ((-6, 1), "E Flat Minor"),
   ((-5, 1), "B Flat Minor"),
   ((-4, 1), "F Minor"),
   ((-3, 1), "C Minor"),
   ((-2, 1), "G Minor"),
   ((-1, 1), "D Minor"),
   ((0, 1), "A Minor"),
   ((1, 1), "E Minor"),
   ((2, 1), "B Minor"),
   ((3, 1), "F Sharp Minor"),
   ((4, 1), "C Sharp Minor"),
   ((5, 1), "G Sharp Minor"),
   ((6, 1), "D Sharp Minor"),
   ((7, 1), "A Sharp Minor")]

/-- REV_KEY_MAP = dict((v, k) for (k, v) in KEY_MAP.items()). -/
def REV_KEY_MAP : List (String × (Int × Int)) :=
  dictOf (KEY_MAP.map (fun e => (e.2, e.1)))

def startsWithL : List Char → List Char → Bool
  | _, [] => true
  | [], _ :: _ => false
  | c :: cs, p :: ps => c == p && startsWithL cs ps

def endsWithL (cs pat : List Char) : Bool :=
  startsWithL cs.reverse pat.reverse

/-- key.replace(' ', '').lower() at character-list level. -/
def normKey (key : List Char) : List Char :=
  (key.filter (fun c => c != ' ')).map Char.toLower

/-- Accidental detection of parse_key on the characters after the note
letter: flat glyph or word first, then sharp glyph or word, else empty. -/
def part2Of (rest : List Char) : String :=
  if startsWithL rest [FLAT] || startsWithL rest "flat".data then "Flat"
  else if startsWithL rest [SHARP] || startsWithL rest "sharp".data then "Sharp"
  else ""

/-- Mode detection of parse_key on the whole stripped lower-cased key. -/
def part3Of (key : List Char) : String :=
  if endsWithL key "minor".data then "Minor"
  else if endsWithL key "major".data then "Major"
  else "Major"

def mkLookupKey (c : Char) (rest : List Char) : String :=
  String.mk [c.toUpper] ++ " " ++ part2Of rest ++ " " ++ part3Of (c :: rest)

/-- parse_key of pdf_updater.py.  Except.error models the uncaught Python
IndexError raised by key[0] when the space-stripped input is empty;
Except.ok none is the not-found result of REV_KEY_MAP.get. -/
def parse_key (key : String) : Except String (Option (Int × Int)) :=
  match normKey key.data with
  | [] => Except.error "IndexError"
  | c :: rest => Except.ok (dictGet REV_KEY_MAP (mkLookupKey c rest))

/-! ## Field-mapping layer -/

/-- The META_MAP dict literal of pdf_updater.py, with its duplicated
/rating entry, before Python dict construction collapses duplicates. -/
def META_MAP_ITEMS : List (String × String) :=
  [("/Author", "Composer"),
   ("/Title", "Title"),
   ("/Subject", "Genre"),
   ("/Keywords", "Tags"),
   ("/rating", "Rating"),
   ("/difficulty", "Difficulty"),
   ("/rating", "Rating"),
   ("/duration", "Duration"),
   ("/keysf", "Key"),
   ("/keysmi", "Key")]

def META_MAP : List (String × String) := dictOf META_MAP_ITEMS

/-- REV_META_MAP = dict((v, k) for (k, v) in META_MAP.items()); the two
Key entries collapse, Key ending up at /keysmi. -/
def REV_META_MAP : List (String × String) :=
  dictOf (META_MAP.map (fun e => (e.2, e.1)))

inductive MetaVal where
  | str : String → MetaVal
  | int : Int → MetaVal
deriving DecidableEq

/-- dict_to_metadata of pdf_updater.py, consumed eagerly as its callers
do via dict(...).  The first component collects the yielded pairs, the
second the Unknown Key diagnostics printed for unrecognized names.
Except.error models the uncaught exceptions: a propagated parse_key
IndexError, or the TypeError from key_sig[0] when parse_key returned
None. -/
def dict_to_metadata :
    List (String × String) → Except String (List (String × MetaVal) × List String)
  | [] => Except.ok ([], [])
  | (key, val) :: rest =>
    if key = "Key" then
      match parse_key val with
      | Except.error e => Except.error e
      | Except.ok none => Except.error "TypeError"
      | Except.ok (some sig) =>
        match dict_to_metadata rest with
        | Except.error e => Except.error e
        | Except.ok (out, diags) =>
          Except.ok (("/keysf", MetaVal.int sig.1) :: ("/keysmi", MetaVal.int sig.2) :: out, diags)
    else
      match dictGet REV_META_MAP key with
      | some metaKey =>
        match dict_to_metadata rest with
        | Except.error e => Except.error e
        | Except.ok (out, diags) => Except.ok ((metaKey, MetaVal.str val) :: out, diags)
      | none =>
        match dict_to_metadata rest with
        | Except.error e => Except.error e
        | Except.ok (out, diags) => Except.ok (out, key :: diags)

/-- The fixed target vocabulary of the output metadata identifiers. -/
def vocabList : List String :=
  ["/Author", "/Title", "/Subject", "/Keywords", "/rating",
   "/difficulty", "/duration", "/keysf", "/keysmi"]

/-- REV_META_MAP evaluated: the duplicate /rating entry collapses and the
Key name ends at /keysmi, the insertion position of /keysf. -/
lemma rev_meta_map_eq :
    REV_META_MAP =
      [("Composer", "/Author"), ("Title", "/Title"), ("Genre", "/Subject"),
       ("Tags", "/Keywords"), ("Rating", "/rating"), ("Difficulty", "/difficulty"),
       ("Duration", "/duration"), ("Key", "/keysmi")] := rfl

lemma rev_meta_get_spec (k mk : String) (h : dictGet REV_META_MAP k = some mk) :
    mk ∈ vocabList ∧ mk ≠ "/keysf" ∧ mk ≠ "/keysmi" ∨ mk = "/keysmi" ∧ k = "Key" := by
  rw [rev_meta_map_eq] at h
  simp only [dictGet] at h
  split_ifs at h <;>
    (injection h with h2; subst h2;
      first
        | exact Or.inl ⟨by decide, by decide, by decide⟩
        | exact Or.inr ⟨rfl, by assumption⟩)

/-! ## Timestamp codec

parse_timestamp_str first rewrites a trailing offset with the regular
expression ([+-])(dd)'(dd)'$ and then calls datetime.strptime with the
format D:%Y%m%d%H%M%S%z.  The model below reproduces CPython _strptime
for this fixed format: the compiled pattern is
D: (dddd) (1[0-2]|0[1-9]|[1-9]) (3[0-1]|[1-2]d|0[1-9]|[1-9]| [1-9])
(2[0-3]|[0-1]d|d) ([0-5]d|d) (6[0-1]|[0-5]d|d)
([+-]dd:?[0-5]d(:?[0-5]d(.d:1-6:)?)?|Z), matched against a prefix of
the string by a backtracking search that tries alternatives in written
order with optional groups taken greedily; the leftover must then be
empty, the offset capture is converted with a consistency check on its
colons, and the fields must form a valid datetime and a timezone offset
strictly within one day.  The D: prefix is matched case-insensitively,
the literal Z case-sensitively, as CPython does. -/

def isDig (c : Char) : Bool := decide ('0' ≤ c) && decide (c ≤ '9')

def dval (c : Char) : Nat := c.toNat - 48

def digList : List Char := ['0', '1', '2', '3', '4', '5', '6', '7', '8', '9']

def digitChar (n : Nat) : Char := digList.getD (n % 10) '0'

/-- A timestamp as the data model of the spec: calendar fields at second
resolution and an optional UTC offset, held in microseconds as CPython
timezone objects resolve it. -/
structure Timestamp where
  year : Nat
  month : Nat
  day : Nat
  hour : Nat
  minute : Nat
  second : Nat
  offset : Option Int
deriving DecidableEq

def isLeap (y : Nat) : Bool :=
  decide (y % 4 = 0) && (decide (y % 100 ≠ 0) || decide (y % 400 = 0))

def daysInMonth (y mo : Nat) : Nat :=
  if mo = 2 then (if isLeap y then 29 else 28)
  else if mo = 4 ∨ mo = 6 ∨ mo = 9 ∨ mo = 11 then 30
  else 31

def validDate (y mo d : Nat) : Bool :=
  decide (1 ≤ y) && decide (y ≤ 9999) && decide (1 ≤ mo) && decide (mo ≤ 12)
    && decide (1 ≤ d) && decide (d ≤ daysInMonth y mo)

def validTime (h mi s : Nat) : Bool :=
  decide (h ≤ 23) && decide (mi ≤ 59) && decide (s ≤ 59)

/-- A timezone offset must lie strictly between minus and plus 24 hours,
here in microseconds. -/
def validOffsetUS (z : Int) : Bool :=
  decide (-86400000000 < z) && decide (z < 86400000000)

def firstSome {α : Type} : List (Option α) → Option α
  | [] => none
  | some a :: _ => some a
  | none :: rest => firstSome rest

/-- The four-digit %Y group. -/
def altY : List Char → List (Nat × List Char)
  | a :: b :: c :: d :: rest =>
    if isDig a ∧ isDig b ∧ isDig c ∧ isDig d then
      [(1000 * dval a + 100 * dval b + 10 * dval c + dval d, rest)]
    else []
  | _ => []

/-- The %m group alternatives in regex order. -/
def altM (cs : List Char) : List (Nat × List Char) :=
  (match cs with
   | a :: b :: rest =>
     (if a = '1' ∧ ('0' ≤ b ∧ b ≤ '2') then [(10 + dval b, rest)] else []) ++
     (if a = '0' ∧ ('1' ≤ b ∧ b ≤ '9') then [(dval b, rest)] else [])
   | _ => []) ++
  (match cs with
   | a :: rest => if '1' ≤ a ∧ a ≤ '9' then [(dval a, rest)] else []
   | _ => [])

/-- The %d group alternatives in regex order, including the final
space-then-digit alternative of CPython. -/
def altD (cs : List Char) : List (Nat × List Char) :=
  (match cs with
   | a :: b :: rest =>
     (if a = '3' ∧ ('0' ≤ b ∧ b ≤ '1') then [(30 + dval b, rest)] else []) ++
     (if ('1' ≤ a ∧ a ≤ '2') ∧ isDig b then [(10 * dval a + dval b, rest)] else []) ++
     (if a = '0' ∧ ('1' ≤ b ∧ b ≤ '9') then [(dval b, rest)] else [])
   | _ => []) ++
  (match cs with
   | a :: rest => if '1' ≤ a ∧ a ≤ '9' then [(dval a, rest)] else []
   | _ => []) ++
  (match cs with
   | ' ' :: a :: rest => if '1' ≤ a ∧ a ≤ '9' then [(dval a, rest)] else []
   | _ => [])

/-- The %H group alternatives in regex order. -/
def altH (cs : List Char) : List (Nat × List Char) :=
  (match cs with
   | a :: b :: rest =>
     (if a = '2' ∧ ('0' ≤ b ∧ b ≤ '3') then [(20 + dval b, rest)] else []) ++
     (if ('0' ≤ a ∧ a ≤ '1') ∧ isDig b then [(10 * dval a + dval b, rest)] else [])
   | _ => []) ++
  (match cs with
   | a :: rest => if isDig a then [(dval a, rest)] else []
   | _ => [])

/-- The %M group alternatives in regex order. -/
def altMin (cs : List Char) : List (Nat × List Char) :=
  (match cs with
   | a :: b :: rest =>
     if ('0' ≤ a ∧ a ≤ '5') ∧ isDig b then [(10 * dval a + dval b, rest)] else []
   | _ => []) ++
  (match cs with
   | a :: rest => if isDig a then [(dval a, rest)] else []
   | _ => [])

/-- The %S group alternatives in regex order, leap seconds included. -/
def altS (cs : List Char) : List (Nat × List Char) :=
  (match cs with
   | a :: b :: rest =>
     (if a = '6' ∧ ('0' ≤ b ∧ b ≤ '1') then [(60 + dval b, rest)] else []) ++
     (if ('0' ≤ a ∧ a ≤ '5') ∧ isDig b then [(10 * dval a + dval b, rest)] else [])
   | _ => []) ++
  (match cs with
   | a :: rest => if isDig a then [(dval a, rest)] else []
   | _ => [])

/-- The capture of a signed %z offset: sign, hours, whether a colon
preceded the minutes, minutes, and optionally whether a colon preceded
the seconds together with the seconds and the fraction in microseconds. -/
structure ZOffCap where
  neg : Bool
  hh : Nat
  colon1 : Bool
  mm : Nat
  secs : Option (Bool × Nat × Nat)
deriving DecidableEq

inductive ZCap where
  | zulu : ZCap
  | off : ZOffCap → ZCap
deriving DecidableEq

def fracVal (ds : List Char) : Nat :=
  (ds.foldl (fun acc c => 10 * acc + dval c) 0) * 10 ^ (6 - ds.length)

/-- The optional fraction (.d:1-6:)? of the %z group: greedy digit runs
from the longest down, then the empty alternative. -/
def fracAlts (cs : List Char) : List (Nat × List Char) :=
  (match cs with
   | '.' :: rest =>
     (List.range ((rest.takeWhile isDig).take 6).length).map (fun i =>
       (fracVal (rest.take (((rest.takeWhile isDig).take 6).length - i)),
        rest.drop (((rest.takeWhile isDig).take 6).length - i)))
   | _ => []) ++ [(0, cs)]

def secsCore (cs : List Char) : List ((Nat × Nat) × List Char) :=
  match cs with
  | a :: b :: rest =>
    if ('0' ≤ a ∧ a ≤ '5') ∧ isDig b then
      (fracAlts rest).map (fun fr => ((10 * dval a + dval b, fr.1), fr.2))
    else []
  | _ => []

/-- The optional seconds group (:?[0-5]d(...)?)? of %z: colon form
first, then the colon-free form, then the empty alternative. -/
def secsAlts (cs : List Char) : List (Option (Bool × Nat × Nat) × List Char) :=
  (match cs with
   | ':' :: rest => (secsCore rest).map (fun p => (some (true, p.1.1, p.1.2), p.2))
   | _ => []) ++
  (secsCore cs).map (fun p => (some (false, p.1.1, p.1.2), p.2)) ++
  [(none, cs)]

/-- The minutes of %z with its optional leading colon, greedy. -/
def minAlts (cs : List Char) : List ((Bool × Nat) × List Char) :=
  (match cs with
   | ':' :: a :: b :: rest =>
     if ('0' ≤ a ∧ a ≤ '5') ∧ isDig b then
       [((true, 10 * dval a + dval b), rest)]
     else []
   | _ => []) ++
  (match cs with
   | a :: b :: rest =>
     if ('0' ≤ a ∧ a ≤ '5') ∧ isDig b then
       [((false, 10 * dval a + dval b), rest)]
     else []
   | _ => [])

/-- The signed alternative of the %z group, after its first three
characters have been split off. -/
def zMain (sgn h1 h2 : Char) (rest : List Char) : List (ZCap × List Char) :=
  if (sgn = '+' ∨ sgn = '-') ∧ isDig h1 ∧ isDig h2 then
    (minAlts rest).flatMap (fun mr =>
      (secsAlts mr.2).map (fun sr =>
        (ZCap.off ⟨sgn == '-', 10 * dval h1 + dval h2, mr.1.1, mr.1.2, sr.1⟩, sr.2)))
  else []

/-- The %z group alternatives: the signed offset, then literal Z. -/
def altZ (cs : List Char) : List (ZCap × List Char) :=
  (match cs with
   | sgn :: h1 :: h2 :: rest => zMain sgn h1 h2 rest
   | _ => []) ++
  (match cs with
   | 'Z' :: rest => [(ZCap.zulu, rest)]
   | _ => [])

structure RawTS where
  y : Nat
  mo : Nat
  d : Nat
  h : Nat
  mi : Nat
  s : Nat
  z : ZCap
deriving DecidableEq

/-- Depth-first search over the alternatives of one group: the first
alternative whose continuation succeeds wins, as regex backtracking
does. -/
def tryEach {α β : Type} (alts : List (α × List Char))
    (k : α × List Char → Option β) : Option β :=
  firstSome (alts.map k)

/-- The backtracking prefix match of the compiled format regex: the
first full parse in alternative order, with whatever input is left. -/
def strptimeDTZ (cs : List Char) : Option (RawTS × List Char) :=
  match cs with
  | c0 :: c1 :: rest =>
    if (c0 = 'D' ∨ c0 = 'd') ∧ c1 = ':' then
      tryEach (altY rest) fun py =>
      tryEach (altM py.2) fun pm =>
      tryEach (altD pm.2) fun pd =>
      tryEach (altH pd.2) fun ph =>
      tryEach (altMin ph.2) fun pmi =>
      tryEach (altS pmi.2) fun ps =>
      tryEach (altZ ps.2) fun pz =>
      some (⟨py.1, pm.1, pd.1, ph.1, pmi.1, ps.1, pz.1⟩, pz.2)
    else none
  | _ => none

/-- Conversion of the z capture by the slicing code of _strptime: Z is
offset zero; a signed capture must use its colons consistently, else
the conversion raises, modelled as none. -/
def zToOff : ZCap → Option Int
  | ZCap.zulu => some 0
  | ZCap.off c =>
    match c.secs with
    | none =>
      some ((if c.neg then -1 else 1) * (((c.hh * 3600 + c.mm * 60) * 1000000 : Nat) : Int))
    | some sec =>
      if c.colon1 = sec.1 then
        some ((if c.neg then -1 else 1) *
          ((((c.hh * 3600 + c.mm * 60 + sec.2.1) * 1000000 + sec.2.2 : Nat)) : Int))
      else none

/-- The test and replacement applied to the last seven characters. -/
def subOffsetCore (cs : List Char) (sgn a b q1 c d q2 : Char) : List Char :=
  if (sgn = '+' ∨ sgn = '-') ∧ isDig a ∧ isDig b ∧ q1 = '\'' ∧ isDig c ∧ isDig d
      ∧ q2 = '\'' then
    cs.take (cs.length - 7) ++ [sgn, a, b, c, d]
  else cs

/-- One substitution of RE_OFFSET at the end of the string: a trailing
sign, two digits, quote, two digits, quote loses the two quotes. -/
def subOffsetEnd (cs : List Char) : List Char :=
  match cs.drop (cs.length - 7) with
  | [sgn, a, b, q1, c, d, q2] => subOffsetCore cs sgn a b q1 c d q2
  | _ => cs

/-- RE_OFFSET.sub of parse_timestamp_str: the dollar anchor of the
Python pattern also matches just before a trailing newline. -/
def applyOffsetSub (cs : List Char) : List Char :=
  if cs.getLast? = some '\n' then subOffsetEnd cs.dropLast ++ ['\n']
  else subOffsetEnd cs

/-- parse_timestamp_str of pdf_updater.py: offset rewriting, the regex
match which must consume the whole string, the offset conversion, and
the datetime and timezone construction checks; any ValueError on the
way is none. -/
def parse_ts_list (cs : List Char) : Option Timestamp :=
  match strptimeDTZ (applyOffsetSub cs) with
  | none => none
  | some (r, rest) =>
    if rest = [] then
      match zToOff r.z with
      | none => none
      | some off =>
        if validDate r.y r.mo r.d && validTime r.h r.mi r.s && validOffsetUS off then
          some ⟨r.y, r.mo, r.d, r.h, r.mi, r.s, some off⟩
        else none
    else none

def parse_timestamp_str (s : String) : Option Timestamp := parse_ts_list s.data

def pad2 (n : Nat) : List Char := [digitChar (n / 10), digitChar n]

def pad4 (n : Nat) : List Char :=
  [digitChar (n / 1000), digitChar (n / 100), digitChar (n / 10), digitChar n]

/-- The %Y rendering of strftime on glibc: the year in decimal without
zero padding; valid datetime years have at most four digits. -/
def decDigits (y : Nat) : List Char :=
  if y < 10 then [digitChar y]
  else if y < 100 then [digitChar (y / 10), digitChar y]
  else if y < 1000 then [digitChar (y / 100), digitChar (y / 10), digitChar y]
  else pad4 y

def pad6 (n : Nat) : List Char :=
  [digitChar (n / 100000), digitChar (n / 10000), digitChar (n / 1000),
   digitChar (n / 100), digitChar (n / 10), digitChar n]

/-- The %z replacement of datetime.strftime: empty for a naive
timestamp, else sign, two-digit hours and minutes, with seconds and
microseconds appended only when nonzero. -/
def pyPercentZ (offset : Option Int) : List Char :=
  match offset with
  | none => []
  | some z =>
    (if z < 0 then '-' else '+') ::
      (pad2 (z.natAbs / 3600000000) ++ pad2 (z.natAbs / 60000000 % 60) ++
        (if z.natAbs / 1000000 % 60 = 0 ∧ z.natAbs % 1000000 = 0 then []
         else pad2 (z.natAbs / 1000000 % 60) ++
           (if z.natAbs % 1000000 = 0 then [] else '.' :: pad6 (z.natAbs % 1000000))))

/-- The reassembled offset of fmt_timestamp: when the %z string is
nonempty, its character 0, slice 1:3 and slice 3:6 around the two
literal quote characters; empty otherwise. -/
def fmtOffsetOf (offset : Option Int) : List Char :=
  if pyPercentZ offset = [] then []
  else
    (pyPercentZ offset).take 1 ++ ((pyPercentZ offset).drop 1).take 2 ++
      '\'' :: (((pyPercentZ offset).drop 3).take 3 ++ ['\''])

/-- fmt_timestamp of pdf_updater.py: strftime of D:%Y%m%d%H%M%S with
the reassembled quoted offset appended. -/
def fmt_timestamp (t : Timestamp) : String :=
  String.mk ('D' :: ':' ::
    (decDigits t.year ++ (pad2 t.month ++ (pad2 t.day ++ (pad2 t.hour ++
      (pad2 t.minute ++ (pad2 t.second ++ fmtOffsetOf t.offset)))))))

/-- The wire string D:YYYYMMDDHHMMSS with a quoteless signed offset, as
the strings look after offset rewriting. -/
def wireNoQ (y mo d h mi s : Nat) (sgn : Char) (oh om : Nat) : List Char :=
  'D' :: ':' :: (pad4 y ++ (pad2 mo ++ (pad2 d ++ (pad2 h ++
    (pad2 mi ++ (pad2 s ++ sgn :: (pad2 oh ++ pad2 om)))))))

/-- The wire string D:YYYYMMDDHHMMSS with a quoted signed offset, the
encoder output format. -/
def wireQ (y mo d h mi s : Nat) (sgn : Char) (oh om : Nat) : List Char :=
  'D' :: ':' :: (pad4 y ++ (pad2 mo ++ (pad2 d ++ (pad2 h ++
    (pad2 mi ++ (pad2 s ++ sgn :: (pad2 oh ++ '\'' :: (pad2 om ++ ['\'']))))))))

/-- The offset in microseconds that a parsed quoteless offset denotes. -/
def zOffVal (sgn : Char) (oh om : Nat) : Int :=
  (if sgn == '-' then -1 else 1) * (((oh * 3600 + om * 60) * 1000000 : Nat) : Int)

/-! ## Lemmas about the matcher on zero-padded wire strings -/

lemma isDig_digitChar (n : Nat) : isDig (digitChar n) = true := by
  unfold digitChar
  have h : n % 10 < 10 := Nat.mod_lt _ (by omega)
  set k := n % 10 with hk
  interval_cases k <;> rfl

lemma dval_digitChar (n : Nat) : dval (digitChar n) = n % 10 := by
  unfold digitChar
  have h : n % 10 < 10 := Nat.mod_lt _ (by omega)
  set k := n % 10 with hk
  interval_cases k <;> rfl

lemma tryEach_cons {α β : Type} (x : α × List Char) (l : List (α × List Char))
    (k : α × List Char → Option β) (b : β) (h : k x = some b) :
    tryEach (x :: l) k = some b := by
  unfold tryEach
  simp only [List.map_cons, h]
  rfl

lemma altY_pad (y : Nat) (t : List Char) (hy : y ≤ 9999) :
    altY (pad4 y ++ t) = [(y, t)] := by
  show altY (digitChar (y / 1000) :: digitChar (y / 100) ::
    digitChar (y / 10) :: digitChar y :: t) = [(y, t)]
  simp only [altY]
  rw [if_pos ⟨isDig_digitChar _, isDig_digitChar _, isDig_digitChar _, isDig_digitChar _⟩]
  rw [dval_digitChar, dval_digitChar, dval_digitChar, dval_digitChar]
  have hv : 1000 * (y / 1000 % 10) + 100 * (y / 100 % 10) + 10 * (y / 10 % 10) +
      y % 10 = y := by omega
  rw [hv]

lemma altM_pad (mo : Nat) (t : List Char) (h1 : 1 ≤ mo) (h2 : mo ≤ 12) :
    ∃ l, altM (pad2 mo ++ t) = (mo, t) :: l := by
  interval_cases mo <;> exact ⟨_, rfl⟩

lemma altD_pad (d : Nat) (t : List Char) (h1 : 1 ≤ d) (h2 : d ≤ 31) :
    ∃ l, altD (pad2 d ++ t) = (d, t) :: l := by
  interval_cases d <;> exact ⟨_, rfl⟩

lemma altH_pad (h : Nat) (t : List Char) (h2 : h ≤ 23) :
    ∃ l, altH (pad2 h ++ t) = (h, t) :: l := by
  interval_cases h <;> exact ⟨_, rfl⟩

lemma altMin_pad (mi : Nat) (t : List Char) (h2 : mi ≤ 59) :
    ∃ l, altMin (pad2 mi ++ t) = (mi, t) :: l := by
  interval_cases mi <;> exact ⟨_, rfl⟩

lemma altS_pad (s : Nat) (t : List Char) (h2 : s ≤ 59) :
    ∃ l, altS (pad2 s ++ t) = (s, t) :: l := by
  interval_cases s <;> exact ⟨_, rfl⟩

lemma minAlts_pad (om : Nat) (hom : om ≤ 59) :
    minAlts (pad2 om) = [((false, om), [])] := by
  interval_cases om <;> rfl

lemma zMain_pad (sgn : Char) (oh om : Nat) (hsgn : sgn = '+' ∨ sgn = '-')
    (hoh : oh ≤ 99) (hom : om ≤ 59) :
    zMain sgn (digitChar (oh / 10)) (digitChar oh) (pad2 om) =
      [(ZCap.off ⟨sgn == '-', oh, false, om, none⟩, [])] := by
  unfold zMain
  rw [if_pos ⟨hsgn, isDig_digitChar _, isDig_digitChar _⟩]
  rw [minAlts_pad om hom]
  rw [dval_digitChar, dval_digitChar]
  have hv : 10 * (oh / 10 % 10) + oh % 10 = oh := by omega
  rw [hv]
  rfl

lemma altZ_pad (sgn : Char) (oh om : Nat) (hsgn : sgn = '+' ∨ sgn = '-')
    (hoh : oh ≤ 99) (hom : om ≤ 59) :
    altZ (sgn :: (pad2 oh ++ pad2 om)) =
      [(ZCap.off ⟨sgn == '-', oh, false, om, none⟩, [])] := by
  rcases hsgn with rfl | rfl
  · show zMain '+' (digitChar (oh / 10)) (digitChar oh) (pad2 om) ++ [] = _
    rw [zMain_pad '+' oh om (Or.inl rfl) hoh hom]
    rfl
  · show zMain '-' (digitChar (oh / 10)) (digitChar oh) (pad2 om) ++ [] = _
    rw [zMain_pad '-' oh om (Or.inr rfl) hoh hom]
    rfl

lemma strptime_wireNoQ (y mo d h mi s : Nat) (sgn : Char) (oh om : Nat)
    (hy : y ≤ 9999) (hmo1 : 1 ≤ mo) (hmo2 : mo ≤ 12)
    (hd1 : 1 ≤ d) (hd2 : d ≤ 31) (hh : h ≤ 23) (hmi : mi ≤ 59) (hs : s ≤ 59)
    (hsgn : sgn = '+' ∨ sgn = '-') (hoh : oh ≤ 99) (hom : om ≤ 59) :
    strptimeDTZ (wireNoQ y mo d h mi s sgn oh om) =
      some (⟨y, mo, d, h, mi, s, ZCap.off ⟨sgn == '-', oh, false, om, none⟩⟩, []) := by
  obtain ⟨lM, hM⟩ := altM_pad mo
    (pad2 d ++ (pad2 h ++ (pad2 mi ++ (pad2 s ++ sgn :: (pad2 oh ++ pad2 om))))) hmo1 hmo2
  obtain ⟨lD, hD⟩ := altD_pad d
    (pad2 h ++ (pad2 mi ++ (pad2 s ++ sgn :: (pad2 oh ++ pad2 om)))) hd1 hd2
  obtain ⟨lH, hHl⟩ := altH_pad h
    (pad2 mi ++ (pad2 s ++ sgn :: (pad2 oh ++ pad2 om))) hh
  obtain ⟨lMi, hMil⟩ := altMin_pad mi
    (pad2 s ++ sgn :: (pad2 oh ++ pad2 om)) hmi
  obtain ⟨lS, hSl⟩ := altS_pad s (sgn :: (pad2 oh ++ pad2 om)) hs
  simp only [wireNoQ, strptimeDTZ]
  rw [if_pos (by simp)]
  rw [altY_pad y _ hy]
  refine tryEach_cons _ _ _ _ ?_
  dsimp only
  rw [hM]
  refine tryEach_cons _ _ _ _ ?_
  dsimp only
  rw [hD]
  refine tryEach_cons _ _ _ _ ?_
  dsimp only
  rw [hHl]
  refine tryEach_cons _ _ _ _ ?_
  dsimp only
  rw [hMil]
  refine tryEach_cons _ _ _ _ ?_
  dsimp only
  rw [hSl]
  refine tryEach_cons _ _ _ _ ?_
  dsimp only
  rw [altZ_pad sgn oh om hsgn hoh hom]
  refine tryEach_cons _ _ _ _ ?_
  rfl

lemma applyOffsetSub_wireQ (y mo d h mi s : Nat) (sgn : Char) (oh om : Nat)
    (hsgn : sgn = '+' ∨ sgn = '-') :
    applyOffsetSub (wireQ y mo d h mi s sgn oh om) =
      wireNoQ y mo d h mi s sgn oh om := by
  have hlast : (wireQ y mo d h mi s sgn oh om).getLast? ≠ some '\n' := by
    show some '\'' ≠ some '\n'
    decide
  unfold applyOffsetSub
  rw [if_neg hlast]
  show subOffsetCore (wireQ y mo d h mi s sgn oh om) sgn (digitChar (oh / 10))
    (digitChar oh) '\'' (digitChar (om / 10)) (digitChar om) '\'' = _
  unfold subOffsetCore
  rw [if_pos ⟨hsgn, isDig_digitChar _, isDig_digitChar _, rfl, isDig_digitChar _,
    isDig_digitChar _, rfl⟩]
  rfl

lemma applyOffsetSub_wireNoQ (y mo d h mi s : Nat) (sgn : Char) (oh om : Nat) :
    applyOffsetSub (wireNoQ y mo d h mi s sgn oh om) =
      wireNoQ y mo d h mi s sgn oh om := by
  have hlast : (wireNoQ y mo d h mi s sgn oh om).getLast? ≠ some '\n' := by
    show some (digitChar om) ≠ some '\n'
    intro hcon
    injection hcon with h2
    have hd := isDig_digitChar om
    rw [h2] at hd
    exact absurd hd (by decide)
  have hq : ¬((digitChar (s / 10) = '+' ∨ digitChar (s / 10) = '-') ∧
      isDig (digitChar s) = true ∧ isDig sgn = true ∧ digitChar (oh / 10) = '\'' ∧
      isDig (digitChar oh) = true ∧ isDig (digitChar (om / 10)) = true ∧
      digitChar om = '\'') := by
    intro hcon
    have h2 := hcon.2.2.2.2.2.2
    have hd := isDig_digitChar om
    rw [h2] at hd
    exact absurd hd (by decide)
  unfold applyOffsetSub
  rw [if_neg hlast]
  show subOffsetCore (wireNoQ y mo d h mi s sgn oh om) (digitChar (s / 10))
    (digitChar s) sgn (digitChar (oh / 10)) (digitChar oh) (digitChar (om / 10))
    (digitChar om) = _
  unfold subOffsetCore
  rw [if_neg hq]

lemma daysInMonth_le (y mo : Nat) : daysInMonth y mo ≤ 31 := by
  unfold daysInMonth
  split_ifs <;> omega

lemma zOffVal_plus (oh om : Nat) :
    zOffVal '+' oh om = 1 * (((oh * 3600 + om * 60) * 1000000 : Nat) : Int) := rfl

lemma zOffVal_minus (oh om : Nat) :
    zOffVal '-' oh om = -1 * (((oh * 3600 + om * 60) * 1000000 : Nat) : Int) := rfl

lemma validOffsetUS_zOffVal (sgn : Char) (oh om : Nat)
    (hsgn : sgn = '+' ∨ sgn = '-') (hoh : oh ≤ 23) (hom : om ≤ 59) :
    validOffsetUS (zOffVal sgn oh om) = true := by
  simp only [validOffsetUS, Bool.and_eq_true, decide_eq_true_eq]
  rcases hsgn with rfl | rfl
  · rw [zOffVal_plus]
    constructor <;> omega
  · rw [zOffVal_minus]
    constructor <;> omega

lemma validDate_of (y mo d : Nat) (hy1 : 1 ≤ y) (hy : y ≤ 9999) (hmo1 : 1 ≤ mo)
    (hmo2 : mo ≤ 12) (hd1 : 1 ≤ d) (hd2 : d ≤ daysInMonth y mo) :
    validDate y mo d = true := by
  simp only [validDate, Bool.and_eq_true, decide_eq_true_eq]
  exact ⟨⟨⟨⟨⟨hy1, hy⟩, hmo1⟩, hmo2⟩, hd1⟩, hd2⟩

lemma validTime_of (h mi s : Nat) (hh : h ≤ 23) (hmi : mi ≤ 59) (hs : s ≤ 59) :
    validTime h mi s = true := by
  simp only [validTime, Bool.and_eq_true, decide_eq_true_eq]
  exact ⟨⟨hh, hmi⟩, hs⟩

lemma parse_ts_subbed (y mo d h mi s : Nat) (sgn : Char) (oh om : Nat)
    (cs : List Char)
    (hsub : applyOffsetSub cs = wireNoQ y mo d h mi s sgn oh om)
    (hy1 : 1 ≤ y) (hy : y ≤ 9999) (hmo1 : 1 ≤ mo) (hmo2 : mo ≤ 12)
    (hd1 : 1 ≤ d) (hd2 : d ≤ daysInMonth y mo) (hh : h ≤ 23) (hmi : mi ≤ 59)
    (hs : s ≤ 59) (hsgn : sgn = '+' ∨ sgn = '-') (hoh : oh ≤ 23) (hom : om ≤ 59) :
    parse_ts_list cs = some ⟨y, mo, d, h, mi, s, some (zOffVal sgn oh om)⟩ := by
  have hd31 : d ≤ 31 := le_trans hd2 (daysInMonth_le y mo)
  have hval : (validDate y mo d && validTime h mi s &&
      validOffsetUS (zOffVal sgn oh om)) = true := by
    rw [validDate_of y mo d hy1 hy hmo1 hmo2 hd1 hd2, validTime_of h mi s hh hmi hs,
      validOffsetUS_zOffVal sgn oh om hsgn hoh hom]
    rfl
  unfold parse_ts_list
  rw [hsub]
  rw [strptime_wireNoQ y mo d h mi s sgn oh om hy hmo1 hmo2 hd1 hd31 hh hmi hs hsgn
    (by omega) hom]
  dsimp only
  rw [if_pos rfl]
  rw [show zToOff (ZCap.off ⟨sgn == '-', oh, false, om, none⟩) =
    some (zOffVal sgn oh om) from rfl]
  dsimp only
  rw [if_pos hval]

lemma decDigits_big (y : Nat) (hy : 1000 ≤ y) : decDigits y = pad4 y := by
  unfold decDigits
  rw [if_neg (by omega), if_neg (by omega), if_neg (by omega)]

lemma pyPercentZ_wholeMin (z : Int) (hz : z % 60000000 = 0)
    (_hlo : -86400000000 < z) (_hhi : z < 86400000000) :
    pyPercentZ (some z) =
      (if z < 0 then '-' else '+') ::
        (pad2 (z.natAbs / 3600000000) ++ pad2 (z.natAbs / 60000000 % 60)) := by
  have h1 : z.natAbs % 60000000 = 0 := by
    rcases Int.natAbs_eq z with he | he <;> omega
  have h2 : z.natAbs / 1000000 % 60 = 0 := by omega
  have h3 : z.natAbs % 1000000 = 0 := by omega
  unfold pyPercentZ
  dsimp only
  rw [if_pos (show z.natAbs / 1000000 % 60 = 0 ∧ z.natAbs % 1000000 = 0 from ⟨h2, h3⟩)]
  rw [List.append_nil]

lemma fmt_wireQ (t : Timestamp) (z : Int) (hoff : t.offset = some z)
    (hz : z % 60000000 = 0) (hlo : -86400000000 < z) (hhi : z < 86400000000)
    (hy1 : 1000 ≤ t.year) :
    fmt_timestamp t =
      String.mk (wireQ t.year t.month t.day t.hour t.minute t.second
        (if z < 0 then '-' else '+') (z.natAbs / 3600000000)
        (z.natAbs / 60000000 % 60)) := by
  unfold fmt_timestamp fmtOffsetOf
  rw [hoff, pyPercentZ_wholeMin z hz hlo hhi]
  rw [if_neg (List.cons_ne_nil _ _)]
  rw [decDigits_big t.year hy1]
  rfl

/-! ## Claim theorems for the key codec and the mapping layer -/

/-- C1: the claim says decoding the canonical name of each of the 30
pairs returns the pair.  The code composes its lookup key with a double
space when the accidental is empty, so the canonical names of the 14
natural-note keys never match the single-spaced table entries: on the
canonical name of the pair (0, 0), namely C Major, parse_key returns the
not-found result instead of the pair. -/
theorem keymap_roundtrip_fails_on_natural :
    dictGet KEY_MAP ((0 : Int), (0 : Int)) = some "C Major"
      ∧ parse_key "C Major" = Except.ok none
      ∧ mkLookupKey 'c' "major".data = "C  Major" := by
  refine ⟨rfl, rfl, rfl⟩

/-- C3 counterexample: on the empty string, which resolves to no
canonical name, parse_key raises an IndexError instead of returning the
not-found signal. -/
theorem parse_key_raises_on_empty :
    parse_key "" = Except.error "IndexError" := rfl

/-- C3 amended: for every input whose space-stripped form is nonempty,
parse_key returns normally, with Except.ok none as the not-found signal
for inputs resolving to none of the 30 canonical names, as on the
enharmonic name G Sharp Major; on inputs that are empty or all spaces it
raises an IndexError. -/
theorem parse_key_total_on_nonempty :
    (∀ s : String, normKey s.data ≠ [] → ∃ r, parse_key s = Except.ok r)
      ∧ parse_key "G Sharp Major" = Except.ok none := by
  constructor
  · intro s h
    unfold parse_key
    cases hk : normKey s.data with
    | nil => exact absurd hk h
    | cons c rest => exact ⟨_, rfl⟩
  · rfl

theorem parse_key_total_on_nonempty_witness :
    normKey "G Sharp Major".data ≠ [] ∧
      ∃ r, parse_key "G Sharp Major" = Except.ok r :=
  ⟨by decide, parse_key_total_on_nonempty.1 "G Sharp Major" (by decide)⟩

/-- C9: the mode component computed by parse_key is Minor exactly when
the space-stripped lower-cased input ends with minor, and Major in every
other case, including when the input ends with neither mode word. -/
theorem parse_key_mode :
    ∀ s : String,
      part3Of (normKey s.data) =
        (if endsWithL (normKey s.data) "minor".data then "Minor" else "Major") := by
  intro s
  unfold part3Of
  by_cases h : endsWithL (normKey s.data) "minor".data <;> simp [h]

/-- REV_KEY_MAP evaluated: the 30 reversed entries in insertion order. -/
lemma rev_key_map_eq :
    REV_KEY_MAP =
      [("C Flat Major", (-7, 0)), ("G Flat Major", (-6, 0)),
       ("D Flat Major", (-5, 0)), ("A Flat Major", (-4, 0)),
       ("E Flat Major", (-3, 0)), ("B Flat Major", (-2, 0)),
       ("F Major", (-1, 0)), ("C Major", (0, 0)), ("G Major", (1, 0)),
       ("D Major", (2, 0)), ("A Major", (3, 0)), ("E Major", (4, 0)),
       ("B Major", (5, 0)), ("F Sharp Major", (6, 0)),
       ("C Sharp Major", (7, 0)), ("A Flat Minor", (-7, 1)),
       ("E Flat Minor", (-6, 1)), ("B Flat Minor", (-5, 1)),
       ("F Minor", (-4, 1)), ("C Minor", (-3, 1)), ("G Minor", (-2, 1)),
       ("D Minor", (-1, 1)), ("A Minor", (0, 1)), ("E Minor", (1, 1)),
       ("B Minor", (2, 1)), ("F Sharp Minor", (3, 1)),
       ("C Sharp Minor", (4, 1)), ("G Sharp Minor", (5, 1)),
       ("D Sharp Minor", (6, 1)), ("A Sharp Minor", (7, 1))] := rfl

/-- C6: the key table is a total bijection: its domain is exactly the
pairs with accidentals in the closed interval from -7 to 7 and mode 0 or
1, domain entries and the 30 names are pairwise distinct, and the
reversed table retains all 30 entries and inverts every one of them. -/
theorem key_map_bijection :
    (∀ p ∈ KEY_MAP.map Prod.fst, -7 ≤ p.1 ∧ p.1 ≤ 7 ∧ (p.2 = 0 ∨ p.2 = 1))
      ∧ (∀ a m : Int, -7 ≤ a → a ≤ 7 → (m = 0 ∨ m = 1) →
          (a, m) ∈ KEY_MAP.map Prod.fst)
      ∧ (KEY_MAP.map Prod.fst).Nodup
      ∧ (KEY_MAP.map Prod.snd).Nodup
      ∧ KEY_MAP.length = 30
      ∧ REV_KEY_MAP.length = 30
      ∧ ∀ e ∈ KEY_MAP, dictGet REV_KEY_MAP e.2 = some e.1 := by
  refine ⟨by decide, ?_, by decide, by simp [KEY_MAP], by decide,
    by rw [rev_key_map_eq]; rfl, ?_⟩
  · intro a m h1 h2 h3
    interval_cases a <;> rcases h3 with rfl | rfl <;> decide
  · rw [rev_key_map_eq]
    intro e he
    fin_cases he <;> simp [dictGet]

theorem key_map_bijection_witness :
    (((0 : Int), (0 : Int)) ∈ KEY_MAP.map Prod.fst)
      ∧ dictGet REV_KEY_MAP "C Major" = some ((0 : Int), (0 : Int)) :=
  ⟨key_map_bijection.2.1 0 0 (by decide) (by decide) (Or.inl rfl),
   key_map_bijection.2.2.2.2.2.2 ((0, 0), "C Major") (by simp [KEY_MAP])⟩

/-- C5: whenever the value of a Key field does not decode to a canonical
pair, dict_to_metadata does not emit the key fields and the failure
escapes the mapping layer as an uncaught exception. -/
theorem key_not_found_propagates :
    ∀ (row : List (String × String)) (val : String),
      ("Key", val) ∈ row →
      (∀ v, ("Key", v) ∈ row → v = val) →
      (∀ p : Int × Int, parse_key val ≠ Except.ok (some p)) →
      ∃ e, dict_to_metadata row = Except.error e := by
  intro row
  induction row with
  | nil => intro val hmem _ _; simp at hmem
  | cons head rest ih =>
    intro val hmem huniq hfail
    obtain ⟨k, v⟩ := head
    by_cases hk : k = "Key"
    · subst hk
      have hv : v = val := huniq v (List.mem_cons_self _ _)
      subst hv
      cases hpk : parse_key v with
      | error e => exact ⟨e, by simp [dict_to_metadata, hpk]⟩
      | ok o =>
        cases o with
        | none => exact ⟨"TypeError", by simp [dict_to_metadata, hpk]⟩
        | some p => exact absurd hpk (hfail p)
    · have hmem' : ("Key", val) ∈ rest := by
        rcases List.mem_cons.mp hmem with heq | h
        · exact absurd (congrArg Prod.fst heq).symm hk
        · exact h
      have huniq' : ∀ w, ("Key", w) ∈ rest → w = val :=
        fun w hw => huniq w (List.mem_cons_of_mem _ hw)
      obtain ⟨e, he⟩ := ih val hmem' huniq' hfail
      cases hg : dictGet REV_META_MAP k with
      | some mk => exact ⟨e, by simp [dict_to_metadata, hk, hg, he]⟩
      | none => exact ⟨e, by simp [dict_to_metadata, hk, hg, he]⟩

theorem key_not_found_propagates_witness :
    ∃ e, dict_to_metadata [("Key", "G Sharp Major")] = Except.error e := by
  refine key_not_found_propagates _ "G Sharp Major" (by simp) ?_ ?_
  · intro v hv
    simpa using hv
  · intro p hp
    rw [show parse_key "G Sharp Major" = Except.ok none from rfl] at hp
    simp at hp

/-- C7: the example row maps to exactly the four author, title, subject
and keywords pairs with values passed through verbatim, and the
unrecognized Reference field is dropped with a diagnostic while all
other pairs are still processed. -/
theorem metadata_transform_example :
    dict_to_metadata
        [("Composer", "X"), ("Title", "Y"), ("Genre", "Z"),
         ("Tags", "w"), ("Reference", "467")]
      = Except.ok
          ([("/Author", MetaVal.str "X"), ("/Title", MetaVal.str "Y"),
            ("/Subject", MetaVal.str "Z"), ("/Keywords", MetaVal.str "w")],
           ["Reference"]) := rfl

/-- C8: the row with Key value B-flat Minor emits both key target fields
from the pair (-5, 1), and on every successfully transformed row the two
key target fields occur equally often: one is never emitted without the
other. -/
theorem key_fields_in_pairs :
    dict_to_metadata [("Key", "B♭ Minor")]
        = Except.ok
            ([("/keysf", MetaVal.int (-5)), ("/keysmi", MetaVal.int 1)], [])
      ∧ ∀ (row : List (String × String)) (out : List (String × MetaVal))
          (diags : List String),
          dict_to_metadata row = Except.ok (out, diags) →
          out.countP (fun e => e.1 == "/keysf") =
            out.countP (fun e => e.1 == "/keysmi") := by
  refine ⟨rfl, ?_⟩
  intro row
  induction row with
  | nil =>
    intro out diags h
    simp only [dict_to_metadata] at h
    injection h with h2
    injection h2 with h3 h4
    subst h3
    rfl
  | cons head rest ih =>
    intro out diags h
    obtain ⟨k, v⟩ := head
    by_cases hk : k = "Key"
    · subst hk
      simp only [dict_to_metadata, if_pos] at h
      cases hpk : parse_key v with
      | error e => rw [hpk] at h; cases h
      | ok o =>
        rw [hpk] at h
        cases o with
        | none => cases h
        | some sig =>
          cases hrec : dict_to_metadata rest with
          | error e => rw [hrec] at h; cases h
          | ok pr =>
            obtain ⟨out2, diags2⟩ := pr
            rw [hrec] at h
            injection h with h2
            injection h2 with h3 h4
            subst h3
            simp only [List.countP_cons]
            have := ih out2 diags2 hrec
            simp_all
    · simp only [dict_to_metadata, if_neg hk] at h
      cases hg : dictGet REV_META_MAP k with
      | some mk =>
        rw [hg] at h
        cases hrec : dict_to_metadata rest with
        | error e => rw [hrec] at h; cases h
        | ok pr =>
          obtain ⟨out2, diags2⟩ := pr
          rw [hrec] at h
          injection h with h2
          injection h2 with h3 h4
          subst h3
          have hspec := rev_meta_get_spec k mk hg
          have h1 : (mk == "/keysf") = false := by
            rcases hspec with ⟨_, hne, _⟩ | ⟨hmk, hkk⟩
            · simpa using hne
            · exact absurd hkk hk
          have h2 : (mk == "/keysmi") = false := by
            rcases hspec with ⟨_, _, hne⟩ | ⟨hmk, hkk⟩
            · simpa using hne
            · exact absurd hkk hk
          simp only [List.countP_cons, h1, h2]
          exact ih out2 diags2 hrec
      | none =>
        rw [hg] at h
        cases hrec : dict_to_metadata rest with
        | error e => rw [hrec] at h; cases h
        | ok pr =>
          obtain ⟨out2, diags2⟩ := pr
          rw [hrec] at h
          injection h with h2
          injection h2 with h3 h4
          subst h3
          exact ih out2 diags2 hrec

theorem key_fields_in_pairs_witness :
    (List.countP (fun e => e.1 == "/keysf")
        [(("/Author" : String), MetaVal.str "X")]) =
      (List.countP (fun e => e.1 == "/keysmi")
        [(("/Author" : String), MetaVal.str "X")]) :=
  key_fields_in_pairs.2 [("Composer", "X")] [("/Author", MetaVal.str "X")] [] rfl

/-- C10: every pair emitted by dict_to_metadata has its identifier in
the fixed nine-token vocabulary, and every emitted pair other than the
two key fields carries the input value verbatim for some input field
that maps to that identifier. -/
theorem output_vocab_and_verbatim :
    ∀ (row : List (String × String)) (out : List (String × MetaVal))
      (diags : List String),
      dict_to_metadata row = Except.ok (out, diags) →
      ∀ e ∈ out, e.1 ∈ vocabList ∧
        (¬(e.1 = "/keysf" ∨ e.1 = "/keysmi") →
          ∃ k v, (k, v) ∈ row ∧ dictGet REV_META_MAP k = some e.1 ∧
            e.2 = MetaVal.str v) := by
  intro row
  induction row with
  | nil =>
    intro out diags h e he
    simp only [dict_to_metadata] at h
    injection h with h2
    injection h2 with h3 h4
    subst h3
    simp at he
  | cons head rest ih =>
    intro out diags h e he
    obtain ⟨k, v⟩ := head
    by_cases hk : k = "Key"
    · subst hk
      simp only [dict_to_metadata, if_pos] at h
      cases hpk : parse_key v with
      | error e2 => rw [hpk] at h; cases h
      | ok o =>
        rw [hpk] at h
        cases o with
        | none => cases h
        | some sig =>
          cases hrec : dict_to_metadata rest with
          | error e2 => rw [hrec] at h; cases h
          | ok pr =>
            obtain ⟨out2, diags2⟩ := pr
            rw [hrec] at h
            injection h with h2
            injection h2 with h3 h4
            subst h3
            rcases List.mem_cons.mp he with rfl | he2
            · refine ⟨?_, fun hc => absurd (Or.inl rfl) hc⟩
              show ("/keysf" : String) ∈ vocabList
              decide
            rcases List.mem_cons.mp he2 with rfl | he3
            · refine ⟨?_, fun hc => absurd (Or.inr rfl) hc⟩
              show ("/keysmi" : String) ∈ vocabList
              decide
            obtain ⟨hv, himg⟩ := ih out2 diags2 hrec e he3
            refine ⟨hv, fun hc => ?_⟩
            obtain ⟨k2, v2, hmem, hg2, hval⟩ := himg hc
            exact ⟨k2, v2, List.mem_cons_of_mem _ hmem, hg2, hval⟩
    · simp only [dict_to_metadata, if_neg hk] at h
      cases hg : dictGet REV_META_MAP k with
      | some mk =>
        rw [hg] at h
        cases hrec : dict_to_metadata rest with
        | error e2 => rw [hrec] at h; cases h
        | ok pr =>
          obtain ⟨out2, diags2⟩ := pr
          rw [hrec] at h
          injection h with h2
          injection h2 with h3 h4
          subst h3
          rcases List.mem_cons.mp he with rfl | he2
          · have hspec := rev_meta_get_spec k mk hg
            have hv : mk ∈ vocabList := by
              rcases hspec with ⟨hv, _, _⟩ | ⟨hmk, _⟩
              · exact hv
              · rw [hmk]; decide
            exact ⟨hv, fun _ =>
              ⟨k, v, List.mem_cons_self _ _, hg, rfl⟩⟩
          · obtain ⟨hv, himg⟩ := ih out2 diags2 hrec e he2
            refine ⟨hv, fun hc => ?_⟩
            obtain ⟨k2, v2, hmem, hg2, hval⟩ := himg hc
            exact ⟨k2, v2, List.mem_cons_of_mem _ hmem, hg2, hval⟩
      | none =>
        rw [hg] at h
        cases hrec : dict_to_metadata rest with
        | error e2 => rw [hrec] at h; cases h
        | ok pr =>
          obtain ⟨out2, diags2⟩ := pr
          rw [hrec] at h
          injection h with h2
          injection h2 with h3 h4
          subst h3
          obtain ⟨hv, himg⟩ := ih out2 diags2 hrec e he
          refine ⟨hv, fun hc => ?_⟩
          obtain ⟨k2, v2, hmem, hg2, hval⟩ := himg hc
          exact ⟨k2, v2, List.mem_cons_of_mem _ hmem, hg2, hval⟩

/-- C2 counterexample: the claim says the offset part is optional, so
D:YYYYMMDDHHMMSS with no offset is accepted; the code parses with %z in
the format, which makes the offset mandatory, and rejects it. -/
theorem timestamp_decode_requires_offset :
    parse_timestamp_str "D:20231217105600" = none := rfl

/-- C2 amended: after rewriting a trailing quoted offset, the string is
matched against the lenient CPython pattern for D:%Y%m%d%H%M%S%z, so
every string D:YYYYMMDDHHMMSS followed by a mandatory offset, quoted or
quoteless, with a valid calendar date, in-range time fields and offset
hours at most 23 decodes to its fields; strings without any offset,
without the D: prefix, with non-numeric fields, or with an offset
missing its sign are rejected; but acceptance is wider than the
fixed-width pattern, a twelve-digit form for instance being accepted
with one-digit minute and second. -/
theorem timestamp_decode_spec :
    (∀ y mo d h mi s oh om : Nat, ∀ sgn : Char,
        1 ≤ y → y ≤ 9999 → 1 ≤ mo → mo ≤ 12 → 1 ≤ d → d ≤ daysInMonth y mo →
        h ≤ 23 → mi ≤ 59 → s ≤ 59 → (sgn = '+' ∨ sgn = '-') → oh ≤ 23 → om ≤ 59 →
        parse_timestamp_str (String.mk (wireQ y mo d h mi s sgn oh om)) =
            some ⟨y, mo, d, h, mi, s, some (zOffVal sgn oh om)⟩
          ∧ parse_timestamp_str (String.mk (wireNoQ y mo d h mi s sgn oh om)) =
            some ⟨y, mo, d, h, mi, s, some (zOffVal sgn oh om)⟩)
      ∧ parse_timestamp_str "20231217105600-0500" = none
      ∧ parse_timestamp_str "D:ABCD1217105600-0500" = none
      ∧ parse_timestamp_str "D:202312171056000500" = none
      ∧ parse_timestamp_str "D:202312171056-0500" =
          some ⟨2023, 12, 17, 10, 5, 6, some (-18000000000)⟩ := by
  refine ⟨?_, rfl, rfl, rfl, rfl⟩
  intro y mo d h mi s oh om sgn hy1 hy hmo1 hmo2 hd1 hd2 hh hmi hs hsgn hoh hom
  constructor
  · show parse_ts_list (wireQ y mo d h mi s sgn oh om) = _
    exact parse_ts_subbed y mo d h mi s sgn oh om _
      (applyOffsetSub_wireQ y mo d h mi s sgn oh om hsgn)
      hy1 hy hmo1 hmo2 hd1 hd2 hh hmi hs hsgn hoh hom
  · show parse_ts_list (wireNoQ y mo d h mi s sgn oh om) = _
    exact parse_ts_subbed y mo d h mi s sgn oh om _
      (applyOffsetSub_wireNoQ y mo d h mi s sgn oh om)
      hy1 hy hmo1 hmo2 hd1 hd2 hh hmi hs hsgn hoh hom

theorem timestamp_decode_spec_witness :
    parse_timestamp_str (String.mk (wireQ 2023 12 17 10 56 0 '-' 5 0)) =
        some ⟨2023, 12, 17, 10, 56, 0, some (zOffVal '-' 5 0)⟩
      ∧ parse_timestamp_str (String.mk (wireNoQ 2023 12 17 10 56 0 '-' 5 0)) =
        some ⟨2023, 12, 17, 10, 56, 0, some (zOffVal '-' 5 0)⟩ :=
  timestamp_decode_spec.1 2023 12 17 10 56 0 5 0 '-' (by decide) (by decide)
    (by decide) (by decide) (by decide) (by decide) (by decide) (by decide)
    (by decide) (Or.inr rfl) (by decide) (by decide)

/-- C4 counterexample: a timestamp with no offset satisfies the claims
hypothesis, yet encoding it yields D:20231217105600 whose decoding
fails instead of returning the timestamp. -/
theorem timestamp_roundtrip_fails_no_offset :
    parse_timestamp_str (fmt_timestamp ⟨2023, 12, 17, 10, 56, 0, none⟩) = none
      ∧ parse_timestamp_str (fmt_timestamp ⟨2023, 12, 17, 10, 56, 0, none⟩) ≠
          some ⟨2023, 12, 17, 10, 56, 0, none⟩ :=
  ⟨rfl, by decide⟩

/-- C4 amended: decode inverts encode on every valid timestamp that
carries an offset, the offset being whole-minute, within a day, and the
year at least 1000 so that unpadded %Y yields four digits; and encode
inverts decode on every well-formed wire string that carries a quoted
offset which is not negative zero.  Offset-less timestamps and strings
are outside the round trip: the parser rejects them. -/
theorem timestamp_roundtrip :
    (∀ (t : Timestamp) (z : Int),
        t.offset = some z → z % 60000000 = 0 →
        -86400000000 < z → z < 86400000000 →
        validDate t.year t.month t.day = true →
        validTime t.hour t.minute t.second = true →
        1000 ≤ t.year →
        parse_timestamp_str (fmt_timestamp t) = some t)
      ∧ (∀ y mo d h mi s oh om : Nat, ∀ sgn : Char,
          1000 ≤ y → y ≤ 9999 → 1 ≤ mo → mo ≤ 12 → 1 ≤ d → d ≤ daysInMonth y mo →
          h ≤ 23 → mi ≤ 59 → s ≤ 59 → (sgn = '+' ∨ sgn = '-') → oh ≤ 23 → om ≤ 59 →
          ¬(sgn = '-' ∧ oh = 0 ∧ om = 0) →
          ∃ t2 : Timestamp,
            parse_timestamp_str (String.mk (wireQ y mo d h mi s sgn oh om)) = some t2
              ∧ fmt_timestamp t2 = String.mk (wireQ y mo d h mi s sgn oh om)) := by
  constructor
  · intro t z hoff hz hlo hhi hvd hvt hy1000
    have hvd2 := hvd
    simp only [validDate, Bool.and_eq_true, decide_eq_true_eq] at hvd2
    obtain ⟨⟨⟨⟨⟨hy1, hy⟩, hmo1⟩, hmo2⟩, hd1⟩, hd2⟩ := hvd2
    have hvt2 := hvt
    simp only [validTime, Bool.and_eq_true, decide_eq_true_eq] at hvt2
    obtain ⟨⟨hh, hmi⟩, hs⟩ := hvt2
    have hsgn : (if z < 0 then '-' else '+') = '+' ∨
        (if z < 0 then '-' else '+') = '-' := by
      split_ifs
      · exact Or.inr rfl
      · exact Or.inl rfl
    have hoh_le : z.natAbs / 3600000000 ≤ 23 := by
      rcases Int.natAbs_eq z with he | he <;> omega
    have hom_le : z.natAbs / 60000000 % 60 ≤ 59 := by omega
    have hzval : zOffVal (if z < 0 then '-' else '+') (z.natAbs / 3600000000)
        (z.natAbs / 60000000 % 60) = z := by
      rcases lt_or_le z 0 with hzn | hzp
      · rw [if_pos hzn, zOffVal_minus]
        rcases Int.natAbs_eq z with he | he <;> omega
      · rw [if_neg (not_lt.mpr hzp), zOffVal_plus]
        rcases Int.natAbs_eq z with he | he <;> omega
    rw [fmt_wireQ t z hoff hz hlo hhi hy1000]
    show parse_ts_list (wireQ t.year t.month t.day t.hour t.minute t.second
      (if z < 0 then '-' else '+') (z.natAbs / 3600000000)
      (z.natAbs / 60000000 % 60)) = some t
    rw [parse_ts_subbed t.year t.month t.day t.hour t.minute t.second
      (if z < 0 then '-' else '+') (z.natAbs / 3600000000) (z.natAbs / 60000000 % 60)
      _ (applyOffsetSub_wireQ t.year t.month t.day t.hour t.minute t.second
        (if z < 0 then '-' else '+') (z.natAbs / 3600000000)
        (z.natAbs / 60000000 % 60) hsgn)
      hy1 hy hmo1 hmo2 hd1 hd2 hh hmi hs hsgn hoh_le hom_le]
    rw [hzval]
    obtain ⟨ty, tmo, td, th, tmi, tsec, toff⟩ := t
    simp only at hoff ⊢
    rw [hoff]
  · intro y mo d h mi s oh om sgn hy1000 hy hmo1 hmo2 hd1 hd2 hh hmi hs hsgn hoh hom hnz
    refine ⟨⟨y, mo, d, h, mi, s, some (zOffVal sgn oh om)⟩, ?_, ?_⟩
    · show parse_ts_list (wireQ y mo d h mi s sgn oh om) = _
      exact parse_ts_subbed y mo d h mi s sgn oh om _
        (applyOffsetSub_wireQ y mo d h mi s sgn oh om hsgn)
        (by omega) hy hmo1 hmo2 hd1 hd2 hh hmi hs hsgn hoh hom
    · have hz' : zOffVal sgn oh om % 60000000 = 0 := by
        rcases hsgn with rfl | rfl
        · rw [zOffVal_plus]; omega
        · rw [zOffVal_minus]; omega
      have hlo' : -86400000000 < zOffVal sgn oh om := by
        rcases hsgn with rfl | rfl
        · rw [zOffVal_plus]; omega
        · rw [zOffVal_minus]; omega
      have hhi' : zOffVal sgn oh om < 86400000000 := by
        rcases hsgn with rfl | rfl
        · rw [zOffVal_plus]; omega
        · rw [zOffVal_minus]; omega
      rw [fmt_wireQ ⟨y, mo, d, h, mi, s, some (zOffVal sgn oh om)⟩
        (zOffVal sgn oh om) rfl hz' hlo' hhi' hy1000]
      have hsgn' : (if zOffVal sgn oh om < 0 then '-' else '+') = sgn := by
        rcases hsgn with rfl | rfl
        · rw [if_neg]
          rw [zOffVal_plus]
          omega
        · rw [if_pos]
          rw [zOffVal_minus]
          have hpos : 0 < (oh * 3600 + om * 60) * 1000000 := by
            rcases Decidable.em (oh = 0) with rfl | hoh0
            · rcases Decidable.em (om = 0) with rfl | hom0
              · exact absurd ⟨rfl, rfl, rfl⟩ hnz
              · omega
            · omega
          omega
      have hoh' : (zOffVal sgn oh om).natAbs / 3600000000 = oh := by
        rcases hsgn with rfl | rfl
        · rw [zOffVal_plus, one_mul, Int.natAbs_ofNat]
          omega
        · rw [zOffVal_minus]
          rw [show (-1 : Int) * (((oh * 3600 + om * 60) * 1000000 : Nat) : Int) =
            -(((oh * 3600 + om * 60) * 1000000 : Nat) : Int) from by ring]
          rw [Int.natAbs_neg, Int.natAbs_ofNat]
          omega
      have hom' : (zOffVal sgn oh om).natAbs / 60000000 % 60 = om := by
        rcases hsgn with rfl | rfl
        · rw [zOffVal_plus, one_mul, Int.natAbs_ofNat]
          omega
        · rw [zOffVal_minus]
          rw [show (-1 : Int) * (((oh * 3600 + om * 60) * 1000000 : Nat) : Int) =
            -(((oh * 3600 + om * 60) * 1000000 : Nat) : Int) from by ring]
          rw [Int.natAbs_neg, Int.natAbs_ofNat]
          omega
      rw [hsgn', hoh', hom']

theorem timestamp_roundtrip_witness :
    parse_timestamp_str (fmt_timestamp ⟨2023, 12, 17, 10, 56, 0, some (-18000000000)⟩)
      = some ⟨2023, 12, 17, 10, 56, 0, some (-18000000000)⟩ :=
  timestamp_roundtrip.1 ⟨2023, 12, 17, 10, 56, 0, some (-18000000000)⟩
    (-18000000000) rfl (by decide) (by decide) (by decide) (by decide) (by decide)
    (by decide)

theorem output_vocab_and_verbatim_witness :
    (("/Author", MetaVal.str "X") : String × MetaVal).1 ∈ vocabList ∧
      (¬((("/Author", MetaVal.str "X") : String × MetaVal).1 = "/keysf" ∨
          (("/Author", MetaVal.str "X") : String × MetaVal).1 = "/keysmi") →
        ∃ k v, (k, v) ∈ [(("Composer", "X") : String × String)] ∧
          dictGet REV_META_MAP k =
            some (("/Author", MetaVal.str "X") : String × MetaVal).1 ∧
          (("/Author", MetaVal.str "X") : String × MetaVal).2 = MetaVal.str v) :=
  output_vocab_and_verbatim [("Composer", "X")] [("/Author", MetaVal.str "X")] []
    rfl ("/Author", MetaVal.str "X") (List.mem_singleton_self _)

end PdfUpdater
